import Mathlib

/-!
Verification of the PR-Agent-Reviewer GitHub action against its natural-language
specification.  The action (src/main.ts together with src/rules.ts) filters the
changed files of a pull request, builds two prompts, invokes a completion service
with a primary model and a one-shot fallback, parses the raw reply into an
analysis result, renders a review comment and signals the job outcome.

The development below is a shallow embedding of that pipeline:

* pure string/JSON manipulation is translated into executable Lean functions
  (`extractSpan`, `Json.parse`, `parseAnalysisResult`, `shouldExcludeFile`,
  `postReviewComment`, `scoreBar`, the prompt builders);
* the two external services (code hosting and text completion) are passed in as
  explicit oracles, and `run` / `analyzePR` additionally return the trace of
  calls they made, so that claims about call sequences can be stated;
* JavaScript specifics are modelled on their relevant fragment: `JSON.parse` is
  modelled for integer numbers and the escape sequences the canonical renderer
  emits (no \u escapes, no floats), `toLowerCase` on basic latin letters, and
  `RegExp` on the fragment generated by the exclusion patterns (only `*` and
  `.` act as metacharacters; other regex metacharacters are outside the model).
-/

namespace PRReviewer

/-! ### Character and list utilities -/

/-- Whitespace characters skipped by the JSON parser model. -/
def wsChar (c : Char) : Bool := c = ' ' || c = '\t' || c = '\r' || c = '\n'

/-- Drops leading whitespace, as JSON.parse does before each token. -/
def skipWs : List Char → List Char
  | [] => []
  | c :: t => if wsChar c then skipWs t else c :: t

/-- Bool test: the list does not start with a decimal digit.  Used to express
that the text following a rendered JSON number cannot extend the number. -/
def noDigitHead : List Char → Bool
  | [] => true
  | c :: _ => !c.isDigit

/-- Model of the JavaScript String.prototype.includes test: the needle occurs
as a contiguous substring of the haystack. -/
def containsSub (needle : String) : List Char → Bool
  | [] => needle.data.isEmpty
  | c :: t => needle.data.isPrefixOf (c :: t) || containsSub needle t

/-- String-level wrapper of `containsSub`, argument order as in hay.includes(needle). -/
def strIncludes (hay needle : String) : Bool := containsSub needle hay.data

/-- Model of JavaScript String.prototype.toLowerCase, restricted to basic latin
letters (the substrings the result interpreter searches for are pure ASCII). -/
def toLowerStr (s : String) : String := String.mk (s.data.map Char.toLower)

/-! ### JSON values

`Json` is the type of values produced by the modelled `JSON.parse`.  Numbers are
restricted to integers: the pipeline only ever consumes an integer score, and
IEEE floating point is outside the scope of the embedding. -/

/-- JSON values (integer numbers only). -/
inductive Json where
  | null : Json
  | bool (b : Bool) : Json
  | num (n : Int) : Json
  | str (s : String) : Json
  | arr (elems : List Json) : Json
  | obj (fields : List (String × Json)) : Json

/-! ### Decimal digits and integer rendering -/

/-- The decimal digit character for a value below ten. -/
def digitChar : Nat → Char
  | 0 => '0'
  | 1 => '1'
  | 2 => '2'
  | 3 => '3'
  | 4 => '4'
  | 5 => '5'
  | 6 => '6'
  | 7 => '7'
  | 8 => '8'
  | 9 => '9'
  | _ => '0'

/-- Fuel-indexed decimal rendering of a natural number (structural in the fuel,
so that concrete renderings evaluate definitionally). -/
def natToCharsAux : Nat → Nat → List Char
  | 0, _ => []
  | fuel + 1, n =>
    if n < 10 then [digitChar n]
    else natToCharsAux fuel (n / 10) ++ [digitChar (n % 10)]

/-- Decimal rendering of a natural number. -/
def natToChars (n : Nat) : List Char := natToCharsAux (n + 1) n

/-- Decimal rendering of an integer (minus sign followed by the absolute value). -/
def renderInt (n : Int) : List Char :=
  if n < 0 then '-' :: natToChars n.natAbs else natToChars n.natAbs

/-! ### String escaping and canonical JSON rendering -/

/-- Escaping of a single character inside a JSON string literal. -/
def escapeChar (c : Char) : List Char :=
  if c = '"' then ['\\', '"']
  else if c = '\\' then ['\\', '\\']
  else if c = '\n' then ['\\', 'n']
  else if c = '\t' then ['\\', 't']
  else if c = '\r' then ['\\', 'r']
  else [c]

/-- Escaping of a character sequence inside a JSON string literal. -/
def escape : List Char → List Char
  | [] => []
  | c :: t => escapeChar c ++ escape t

mutual

/-- Canonical (whitespace-free) rendering of a JSON value.  This is the
spec-side serialisation used to state the round-trip claim about the result
interpreter: a well-formed JSON object embedded in prose is this rendering. -/
def render : Json → List Char
  | .null => ['n', 'u', 'l', 'l']
  | .bool b => if b then ['t', 'r', 'u', 'e'] else ['f', 'a', 'l', 's', 'e']
  | .num n => renderInt n
  | .str s => '"' :: (escape s.data ++ ['"'])
  | .arr xs => '[' :: renderArrBody xs
  | .obj fs => '{' :: renderObjBody fs

/-- Rendering of the full element list of an array, closed by a bracket. -/
def renderArrBody : List Json → List Char
  | [] => [']']
  | x :: xs => render x ++ renderArrRest xs

/-- Rendering of the remaining array elements, each preceded by a comma, closed
by a bracket. -/
def renderArrRest : List Json → List Char
  | [] => [']']
  | x :: xs => ',' :: (render x ++ renderArrRest xs)

/-- Rendering of the full field list of an object, closed by a brace. -/
def renderObjBody : List (String × Json) → List Char
  | [] => ['}']
  | f :: fs => renderField f ++ renderObjRest fs

/-- Rendering of one object field: quoted key, colon, value. -/
def renderField : String × Json → List Char
  | (k, v) => '"' :: (escape k.data ++ ('"' :: ':' :: render v))

/-- Rendering of the remaining object fields, each preceded by a comma, closed
by a brace. -/
def renderObjRest : List (String × Json) → List Char
  | [] => ['}']
  | f :: fs => ',' :: (renderField f ++ renderObjRest fs)

end

/-- String-level canonical rendering. -/
def Json.renderStr (j : Json) : String := String.mk (render j)

/-! ### Well-formedness

Strings are restricted to characters the renderer/parser pair handles cleanly
(no unescapable control characters), and object keys are distinct, matching the
deduplicated objects JavaScript `JSON.parse` produces. -/

/-- Characters representable in the modelled JSON string fragment. -/
def strCharOk (c : Char) : Bool := 32 ≤ c.toNat || c = '\n' || c = '\t' || c = '\r'

/-- All characters of the string are representable. -/
def strOkB (s : String) : Bool := s.data.all strCharOk

mutual

/-- Well-formedness of a JSON value: representable strings throughout and
distinct keys in every object. -/
def Json.wf : Json → Bool
  | .null => true
  | .bool _ => true
  | .num _ => true
  | .str s => strOkB s
  | .arr xs => Json.wfList xs
  | .obj fs => decide ((fs.map Prod.fst).Nodup) && Json.wfFields fs

/-- Well-formedness of a list of JSON values. -/
def Json.wfList : List Json → Bool
  | [] => true
  | x :: t => x.wf && Json.wfList t

/-- Well-formedness of an object field list. -/
def Json.wfFields : List (String × Json) → Bool
  | [] => true
  | f :: t => strOkB f.1 && f.2.wf && Json.wfFields t

end

/-! ### JSON parsing (model of JSON.parse) -/

/-- Unescaping of a single escape sequence character. -/
def escChar (c : Char) : Option Char :=
  if c = '"' then some '"'
  else if c = '\\' then some '\\'
  else if c = '/' then some '/'
  else if c = 'n' then some '\n'
  else if c = 't' then some '\t'
  else if c = 'r' then some '\r'
  else if c = 'b' then some (Char.ofNat 8)
  else if c = 'f' then some (Char.ofNat 12)
  else none

/-- Parses the body of a JSON string literal (after the opening quote), up to
and including the closing quote; returns the decoded characters and the rest.
Unescaped control characters are rejected, as in strict JSON. -/
def parseStringBody : List Char → Option (List Char × List Char)
  | [] => none
  | c :: t =>
    if c = '"' then some ([], t)
    else if c = '\\' then
      match t with
      | [] => none
      | e :: t2 =>
        match escChar e with
        | some d => (parseStringBody t2).map (fun p => (d :: p.1, p.2))
        | none => none
    else if c.toNat < 32 then none
    else (parseStringBody t).map (fun p => (c :: p.1, p.2))

/-- Splits the longest leading run of decimal digits from the list. -/
def takeDigits : List Char → (List Char × List Char)
  | [] => ([], [])
  | c :: t =>
    if c.isDigit then
      let p := takeDigits t
      (c :: p.1, p.2)
    else ([], c :: t)

/-- Numeric value of a digit sequence. -/
def digitsVal (ds : List Char) : Nat := ds.foldl (fun a c => a * 10 + (c.toNat - 48)) 0

/-- Parses a nonempty run of digits into a natural number. -/
def parseNumAbs (s : List Char) : Option (Nat × List Char) :=
  match takeDigits s with
  | ([], _) => none
  | (ds, r) => some (digitsVal ds, r)

mutual

/-- Fuel-indexed JSON value parser (model of JSON.parse).  The input is
expected with leading whitespace already skipped (callers apply `skipWs`); the
fuel only bounds the nesting work, and `Json.parse` supplies enough fuel for
any input. -/
def parseVal : Nat → List Char → Option (Json × List Char)
  | _, [] => none
  | 0, _ :: _ => none
  | fuel + 1, c :: t =>
    if c = 'n' then
      (match t with
       | 'u' :: 'l' :: 'l' :: r => some (Json.null, r)
       | _ => none)
    else if c = 't' then
      (match t with
       | 'r' :: 'u' :: 'e' :: r => some (Json.bool true, r)
       | _ => none)
    else if c = 'f' then
      (match t with
       | 'a' :: 'l' :: 's' :: 'e' :: r => some (Json.bool false, r)
       | _ => none)
    else if c = '"' then (parseStringBody t).map (fun p => (Json.str (String.mk p.1), p.2))
    else if c = '-' then (parseNumAbs t).map (fun p => (Json.num (-(p.1 : Int)), p.2))
    else if c = '[' then (parseArrTail fuel (skipWs t)).map (fun p => (Json.arr p.1, p.2))
    else if c = '{' then (parseObjTail fuel (skipWs t)).map (fun p => (Json.obj p.1, p.2))
    else if c.isDigit then (parseNumAbs (c :: t)).map (fun p => (Json.num (p.1 : Int), p.2))
    else none

/-- Parses the inside of an array after the opening bracket (whitespace
skipped): either an immediate closing bracket or a nonempty element list. -/
def parseArrTail : Nat → List Char → Option (List Json × List Char)
  | _, ']' :: r => some ([], r)
  | 0, _ => none
  | fuel + 1, s => parseArrItems fuel s

/-- Parses the nonempty element list of a JSON array, including the closing
bracket. -/
def parseArrItems : Nat → List Char → Option (List Json × List Char)
  | 0, _ => none
  | fuel + 1, s =>
    match parseVal fuel (skipWs s) with
    | some (v, r) =>
      (match skipWs r with
       | ',' :: t => (parseArrItems fuel t).map (fun p => (v :: p.1, p.2))
       | ']' :: t => some ([v], t)
       | _ => none)
    | none => none

/-- Parses the inside of an object after the opening brace (whitespace
skipped): either an immediate closing brace or a nonempty field list. -/
def parseObjTail : Nat → List Char → Option (List (String × Json) × List Char)
  | _, '}' :: r => some ([], r)
  | 0, _ => none
  | fuel + 1, s => parseObjItems fuel s

/-- Parses the nonempty field list of a JSON object, including the closing
brace. -/
def parseObjItems : Nat → List Char → Option (List (String × Json) × List Char)
  | 0, _ => none
  | fuel + 1, s =>
    match skipWs s with
    | '"' :: t =>
      (match parseStringBody t with
       | some (k, r) =>
         (match skipWs r with
          | ':' :: r2 =>
            (match parseVal fuel (skipWs r2) with
             | some (v, r3) =>
               (match skipWs r3 with
                | ',' :: r4 => (parseObjItems fuel r4).map (fun p => ((String.mk k, v) :: p.1, p.2))
                | '}' :: r4 => some ([(String.mk k, v)], r4)
                | _ => none)
             | none => none)
          | _ => none)
       | none => none)
    | _ => none

end

/-- Model of JavaScript JSON.parse on the embedded fragment: parses one value
and requires only trailing whitespace after it. -/
def Json.parse (s : String) : Option Json :=
  match parseVal (2 * s.length + 2) (skipWs s.data) with
  | some (j, r) => if skipWs r = [] then some j else none
  | none => none

/-! ### The result interpreter (PRValidator.parseAnalysisResult) -/

/-- Model of the greedy regex span extraction in parseAnalysisResult: the match
of /\x7b[\s\S]*\x7d/ — from the first opening brace to the last closing brace of
the whole text, provided a closing brace occurs after the first opening one. -/
def extractSpan (s : String) : Option String :=
  match s.data.dropWhile (fun c => c != '{') with
  | [] => none
  | c :: rest =>
    if rest.contains '}' then
      some (String.mk (((c :: rest).reverse.dropWhile (fun d => d != '}')).reverse))
    else none

/-- The sentinel result returned by the catch handler of parseAnalysisResult. -/
def sentinelResult : Json :=
  Json.obj [("approved", Json.bool false),
            ("issues", Json.arr [Json.str "Failed to parse AI analysis"])]

/-- The heuristic fallback result of parseAnalysisResult, computed from the
lowercased text when no JSON-like span exists. -/
def heuristicResult (analysis : String) : Json :=
  Json.obj [("approved", Json.bool (!(strIncludes (toLowerStr analysis) "rejected") &&
                                    !(strIncludes (toLowerStr analysis) "not approved"))),
            ("issues", Json.arr [])]

/-- Model of PRValidator.parseAnalysisResult (src/main.ts, minimal variant).
The whole body runs inside a try/catch: if the greedy span exists it is handed
to JSON.parse and the parsed object is returned verbatim; a JSON.parse failure
throws into the catch handler, which returns `sentinelResult`; if no span
exists the heuristic fallback object is returned. -/
def parseAnalysisResult (analysis : String) : Json :=
  match extractSpan analysis with
  | some span =>
    match Json.parse span with
    | some j => j
    | none => sentinelResult
  | none => heuristicResult analysis

/-! ### JavaScript value access (fragment used by the comment renderer)

The parsed object is returned verbatim, so the renderer reads properties of an
arbitrary JSON value.  `member` models JS property access (throwing on
undefined/null receivers), `truthy` models JS truthiness, `jsToString` models
template-literal coercion. -/

/-- Property read on a JSON value: objects give the last binding of the key (as
deduplicating JS objects do), arrays and strings expose length, everything else
yields undefined (`none`). -/
def jsGet : Json → String → Option Json
  | .obj fs, k => (fs.reverse.find? (fun f => f.1 == k)).map (fun f => f.2)
  | .arr xs, k => if k = "length" then some (.num (xs.length : Int)) else none
  | .str s, k => if k = "length" then some (.num (s.length : Int)) else none
  | _, _ => none

/-- Model of JS property access `v.field`: throws a TypeError when the receiver
is undefined or null, otherwise reads the property (possibly undefined). -/
def member (v : Option Json) (field : String) : Except String (Option Json) :=
  match v with
  | none => Except.error ("TypeError: cannot read properties of undefined (reading " ++ field ++ ")")
  | some Json.null => Except.error ("TypeError: cannot read properties of null (reading " ++ field ++ ")")
  | some j => Except.ok (jsGet j field)

/-- JS truthiness of a possibly-undefined value. -/
def truthy : Option Json → Bool
  | none => false
  | some .null => false
  | some (.bool b) => b
  | some (.num n) => n != 0
  | some (.str s) => s != ""
  | some (.arr _) => true
  | some (.obj _) => true

/-- JS comparison `v > k` on the fragment reachable here (numbers compare,
undefined and non-numbers give false). -/
def jsGtNum (v : Option Json) (k : Int) : Bool :=
  match v with
  | some (.num n) => k < n
  | _ => false

mutual

/-- Template-literal coercion of a JSON value to a string. -/
def jsToString : Json → String
  | .null => "null"
  | .bool true => "true"
  | .bool false => "false"
  | .num n => String.mk (renderInt n)
  | .str s => s
  | .arr xs => jsToStringList xs
  | .obj _ => "[object Object]"

/-- Array coercion: elements joined by commas. -/
def jsToStringList : List Json → String
  | [] => ""
  | [x] => jsToString x
  | x :: y :: t => jsToString x ++ "," ++ jsToStringList (y :: t)

end

/-- Model of the mapping of issues to dashed lines joined by newlines, as the
renderer performs with Array.prototype.map: mapping is only defined on arrays,
as in JS, where calling .map on anything else throws. -/
def jsMapDashJoin (v : Option Json) : Except String String :=
  match v with
  | some (.arr xs) => Except.ok (String.intercalate "\n" (xs.map (fun j => "- " ++ jsToString j)))
  | _ => Except.error "TypeError: issues.map is not a function"

/-- Model of the comment-body construction of PRValidator.postReviewComment
(src/main.ts, minimal variant).  The Except models JS exceptions raised while
building the body (the actual posting call is a separate oracle in `run`). -/
def postReviewComment (result : Json) : Except String String := do
  let approvedV ← member (some result) "approved"
  let statusEmoji := if truthy approvedV then "✅" else "❌"
  let statusLabel := if truthy approvedV then "APPROVED" else "CHANGES REQUESTED"
  let issuesV ← member (some result) "issues"
  let lenV ← member issuesV "length"
  let issuesSection ←
    if jsGtNum lenV 0 then do
      let items ← jsMapDashJoin issuesV
      pure ("\n### 🔴 Issues to Fix\n" ++ items ++ "\n")
    else pure ""
  pure ("## " ++ statusEmoji ++ " AI Code Review\n\n**Status:** " ++ statusLabel ++
        issuesSection ++ "\n---\n*Review generated by AI PR Reviewer ")

/-- Model of the score bar of the extended-variant postReviewComment:
one glyph repeated floor(score/10) times followed by the other repeated
(10 - floor(score/10)) times, for natural scores (for score > 100 the JS code
would throw a RangeError on the negative repeat count; the claim is restricted
to 0..100). -/
def scoreBar (score : Nat) : String :=
  String.mk (List.replicate (score / 10) '█' ++ List.replicate (10 - score / 10) '░')

/-! ### Exclusion patterns (PRValidator.shouldExcludeFile)

The source compiles each pattern with `new RegExp(pattern.replace(/\*/g, ".*"))`
and tests the filename (unanchored search).  The embedding models the regex
fragment such patterns generate: `*` becomes `.*` (any sequence), `.` is the
regex any-single-character metacharacter, and every other character of the
pattern is a literal.  Patterns containing further regex metacharacters are
outside the modelled fragment. -/

/-- Compiled regex tokens of the modelled fragment. -/
inductive RTok where
  | lit (c : Char) : RTok
  | dot : RTok
  | star : RTok
deriving DecidableEq

/-- Declarative semantics: the token list matches the character list exactly. -/
inductive TokMatches : List RTok → List Char → Prop where
  | nil : TokMatches [] []
  | lit (c : Char) (ts : List RTok) (s : List Char) :
      TokMatches ts s → TokMatches (.lit c :: ts) (c :: s)
  | dot (c : Char) (ts : List RTok) (s : List Char) :
      TokMatches ts s → TokMatches (.dot :: ts) (c :: s)
  | star (ts : List RTok) (a b : List Char) :
      TokMatches ts b → TokMatches (.star :: ts) (a ++ b)

/-- Fuel-indexed matcher: does the token list match some prefix of the input?
Structural in the fuel so that concrete tests evaluate definitionally. -/
def tokMatchPreF : Nat → List RTok → List Char → Bool
  | 0, ts, _ => ts.isEmpty
  | _ + 1, [], _ => true
  | fuel + 1, RTok.lit c :: ts, s =>
    (match s with
     | [] => false
     | d :: s2 => c == d && tokMatchPreF fuel ts s2)
  | fuel + 1, RTok.dot :: ts, s =>
    (match s with
     | [] => false
     | _ :: s2 => tokMatchPreF fuel ts s2)
  | fuel + 1, RTok.star :: ts, s =>
    (match s with
     | [] => tokMatchPreF fuel ts []
     | c :: s2 => tokMatchPreF fuel ts (c :: s2) || tokMatchPreF fuel (RTok.star :: ts) s2)

/-- Prefix matcher with sufficient fuel. -/
def tokMatchPre (ts : List RTok) (s : List Char) : Bool :=
  tokMatchPreF (ts.length + s.length) ts s

/-- Unanchored search, as RegExp.prototype.test performs: the token list
matches a prefix of some suffix of the input. -/
def regexTest (ts : List RTok) : List Char → Bool
  | [] => tokMatchPre ts []
  | c :: s => tokMatchPre ts (c :: s) || regexTest ts s

/-- Compilation performed by the source: `*` is replaced by `.*` and the result
is interpreted as a regex, in which `.` matches any single character. -/
def compilePattern (p : String) : List RTok :=
  p.data.map (fun c => if c = '*' then RTok.star else if c = '.' then RTok.dot else RTok.lit c)

/-- Model of PRValidator.shouldExcludeFile (src/main.ts): an empty pattern list
short-circuits to false; otherwise the filename is tested against every
compiled pattern. -/
def shouldExcludeFile (excludePatterns : List String) (filename : String) : Bool :=
  if excludePatterns.length = 0 then false
  else excludePatterns.any (fun p => regexTest (compilePattern p) filename.data)

/-- Modelled from the spec: compilation in which `*` is the only wildcard and
every other character of the pattern is taken literally.  This is the
spec-side reading of the claim, kept for comparison with the source-side
`compilePattern`. -/
def compileLiteral (p : String) : List RTok :=
  p.data.map (fun c => if c = '*' then RTok.star else RTok.lit c)

/-- Modelled from the spec: exclusion test in which every non-`*` pattern
character is literal.  Compared against the source-side `shouldExcludeFile`. -/
def specLiteralExclude (excludePatterns : List String) (filename : String) : Bool :=
  if excludePatterns.length = 0 then false
  else excludePatterns.any (fun p => regexTest (compileLiteral p) filename.data)

/-! ### Configuration parsing and file filtering -/

/-- Model of the single-separator JavaScript String.prototype.split: always at
least one group, so splitting the empty string gives one empty group. -/
def splitOnChar (sep : Char) : List Char → List (List Char)
  | [] => [[]]
  | c :: t =>
    if c = sep then [] :: splitOnChar sep t
    else
      match splitOnChar sep t with
      | [] => [[c]]
      | g :: gs => (c :: g) :: gs

/-- Model of String.prototype.trim on the whitespace fragment. -/
def jsTrim (l : List Char) : List Char :=
  ((l.dropWhile wsChar).reverse.dropWhile wsChar).reverse

/-- Model of the constructor line
`this.excludePatterns = core.getInput("EXCLUDE_PATTERNS").split(",").map(p => p.trim())`. -/
def parseExcludePatterns (input : String) : List String :=
  (splitOnChar ',' input.data).map (fun g => String.mk (jsTrim g))

/-- Changed file of a pull request, as delivered by the file-listing service. -/
structure ChangedFile where
  filename : String
  status : String
  additions : Nat
  deletions : Nat
  patch : Option String

/-- Pull-request metadata consumed by the prompt builder. -/
structure PullReq where
  number : Nat
  title : String
  body : Option String
  author : String

/-- Pure core of PRValidator.getPRFiles: the exclusion filter over the listed
files (the minimal variant applies no file-count cap). -/
def filterFiles (excludePatterns : List String) (files : List ChangedFile) : List ChangedFile :=
  files.filter (fun file => !shouldExcludeFile excludePatterns file.filename)

/-! ### Rules and prompt builders -/

/-- Validation rule (src/main.ts interface; the optional pattern field is
unused by the pipeline and omitted). -/
structure ValidationRule where
  name : String
  description : String
  required : Bool

/-- The statically configured rule set of src/rules.ts. -/
def codingRules : List ValidationRule :=
  [{ name := "Code Quality",
     description := "Code should follow best practices and be well-structured, this includes :\n    - Not put any comment in the code that are not necessary, like console logs for debugging\n    - Not use useEffect if not necessary (avoid re-rendering & performance issues)\n\n    ",
     required := true },
   { name := "Security",
     description := "No security vulnerabilities or sensitive data exposure",
     required := true },
   { name := "Error Handling",
     description := "Proper error handling should be implemented",
     required := true },
   { name := "Testing",
     description := "New features should include appropriate tests",
     required := false }]

/-- Model of PRValidator.buildSystemPrompt (minimal variant). -/
def buildSystemPrompt (rules : List ValidationRule) : String :=
  let rulesText := String.intercalate "\n" (rules.map (fun rule =>
    "- " ++ rule.name ++ ": " ++ rule.description ++ " " ++
    (if rule.required then "(REQUIRED)" else "(OPTIONAL)")))
  "You are an expert code reviewer. Analyze the provided pull request changes according to these validation rules:\n\n" ++
  rulesText ++
  "\n\nYour response must be in the following JSON format:\n\x7b\n  \"approved\": boolean,\n  \"issues\": [\"list of critical issues that must be fixed\"],\n\x7d\n\nGuidelines:\n- Set approved=false if any REQUIRED rule is violated\n- List critical issues that prevent approval, if no issues are found, respond by \"No issues found\""

/-- Per-file block of the user prompt; the diff fence is only added when a
patch is present and nonempty (JS truthiness of file.patch). -/
def fileSection (file : ChangedFile) : String :=
  "### File: " ++ file.filename ++ "\nStatus: " ++ file.status ++
  "\nChanges: +" ++ toString file.additions ++ " -" ++ toString file.deletions ++ "\n\n" ++
  (match file.patch with
   | some p => if p = "" then "" else "```diff\n" ++ p ++ "\n```\n\n"
   | none => "")

/-- Model of PRValidator.buildPRContent. -/
def buildPRContent (files : List ChangedFile) (pullRequest : PullReq) : String :=
  "## Pull Request Information\nTitle: " ++ pullRequest.title ++
  "\nDescription: " ++ (match pullRequest.body with
                        | some b => if b = "" then "No description provided" else b
                        | none => "No description provided") ++
  "\nAuthor: " ++ pullRequest.author ++
  "\nFiles Changed: " ++ toString files.length ++
  "\n\n## Code Changes:\n\n" ++
  String.join (files.map fileSection)

/-! ### Review engine and orchestration -/

/-- Externally observable actions of a run, used to state claims about which
calls are made. -/
inductive Action where
  | completion (model systemPrompt prContent : String) : Action
  | comment (body : String) : Action
deriving DecidableEq

/-- Outcome signalled to the orchestrating caller (core.setFailed versus a
clean return). -/
inductive Outcome where
  | success : Outcome
  | failed (msg : String) : Outcome
deriving DecidableEq

/-- Model of `const analysis = response?.choices[0]?.message?.content;
if (!analysis) throw ...`: an absent or empty text is an error. -/
def contentCheck : Option String → Except String String
  | none => Except.error "No response from OpenAI"
  | some s => if s = "" then Except.error "No response from OpenAI" else Except.ok s

/-- Model of PRValidator.analyzePR (src/main.ts): one completion call with the
primary model; on failure exactly one more call with the fixed fallback model
and the identical prompts, whose failure propagates.  The second component is
the trace of completion calls made. -/
def analyzePR (complete : String → String → String → Except String (Option String))
    (systemPrompt prContent : String) : Except String Json × List Action :=
  match complete "gpt-5-latest" systemPrompt prContent with
  | Except.ok c =>
    ((contentCheck c).map parseAnalysisResult,
     [Action.completion "gpt-5-latest" systemPrompt prContent])
  | Except.error _ =>
    match complete "gpt-4o" systemPrompt prContent with
    | Except.ok c =>
      ((contentCheck c).map parseAnalysisResult,
       [Action.completion "gpt-5-latest" systemPrompt prContent,
        Action.completion "gpt-4o" systemPrompt prContent])
    | Except.error e2 =>
      (Except.error e2,
       [Action.completion "gpt-5-latest" systemPrompt prContent,
        Action.completion "gpt-4o" systemPrompt prContent])

/-- Environment of one run: the event context, the configuration input and the
two external services as oracles. -/
structure Env where
  eventName : String
  pullRequest : Option PullReq
  excludeInput : String
  listFiles : Except String (List ChangedFile)
  complete : String → String → String → Except String (Option String)
  createComment : String → Except String Unit

/-- Model of PRValidator.run (src/main.ts, minimal variant).  The try/catch
surrounding the pipeline turns any thrown error into core.setFailed; the
comment is posted before the verdict is reported.  The second component is the
trace of completion calls and comment-posting attempts. -/
def run (env : Env) : Outcome × List Action :=
  if env.eventName ≠ "pull_request" then
    (Outcome.failed "This action only works on pull_request events", [])
  else
    match env.pullRequest with
    | none => (Outcome.failed "No pull request found in context", [])
    | some pr =>
      match env.listFiles with
      | Except.error e => (Outcome.failed ("Action failed: " ++ e), [])
      | Except.ok files =>
        let validFiles := filterFiles (parseExcludePatterns env.excludeInput) files
        match analyzePR env.complete (buildSystemPrompt codingRules) (buildPRContent validFiles pr) with
        | (Except.error e, acts) => (Outcome.failed ("Action failed: " ++ e), acts)
        | (Except.ok result, acts) =>
          match postReviewComment result with
          | Except.error e => (Outcome.failed ("Action failed: " ++ e), acts)
          | Except.ok body =>
            match env.createComment body with
            | Except.error e =>
              (Outcome.failed ("Action failed: " ++ e), acts ++ [Action.comment body])
            | Except.ok _ =>
              if truthy (jsGet result "approved") then
                (Outcome.success, acts ++ [Action.comment body])
              else
                (Outcome.failed "❌ PR rejected by AI reviewer", acts ++ [Action.comment body])

/-! ### Concrete run environments referenced by the theorems below -/

/-- Fixed pull-request metadata used by the concrete run environments. -/
def pr0 : PullReq := { number := 1, title := "t", body := none, author := "a" }

/-- Environment in which every completion call fails. -/
def failingEnv : Env :=
  { eventName := "pull_request", pullRequest := some pr0, excludeInput := "",
    listFiles := Except.ok [],
    complete := fun _ _ _ => Except.error "completion down",
    createComment := fun _ => Except.ok () }

/-- Environment in which the model answers prose and the comment-posting call
fails. -/
def postFailEnv : Env :=
  { eventName := "pull_request", pullRequest := some pr0, excludeInput := "x",
    listFiles := Except.ok [],
    complete := fun _ _ _ => Except.ok (some "All good"),
    createComment := fun _ => Except.error "comment posting failed" }

/-- Environment in which everything succeeds and the model answers prose. -/
def okEnv : Env :=
  { eventName := "pull_request", pullRequest := some pr0, excludeInput := "x",
    listFiles := Except.ok [],
    complete := fun _ _ _ => Except.ok (some "All good"),
    createComment := fun _ => Except.ok () }

/-- Environment in which the model answers a JSON object lacking the issues
field. -/
def missingIssuesEnv : Env :=
  { eventName := "pull_request", pullRequest := some pr0, excludeInput := "x",
    listFiles := Except.ok [],
    complete := fun _ _ _ => Except.ok (some "\x7b\"approved\": true\x7d"),
    createComment := fun _ => Except.ok () }

/-! ### Correctness of the pattern matcher (towards claim C5) -/

/-- Inversion: only the empty string matches the empty token list. -/
theorem TokMatches.nil_inv {s : List Char} (h : TokMatches [] s) : s = [] := by
  cases h
  rfl

/-- Inversion of a literal-headed match. -/
theorem TokMatches.lit_inv {c : Char} {ts : List RTok} {s : List Char}
    (h : TokMatches (.lit c :: ts) s) : ∃ s2, s = c :: s2 ∧ TokMatches ts s2 := by
  cases h with
  | lit c ts s2 hs => exact ⟨s2, rfl, hs⟩

/-- Inversion of a dot-headed match. -/
theorem TokMatches.dot_inv {ts : List RTok} {s : List Char}
    (h : TokMatches (.dot :: ts) s) : ∃ c s2, s = c :: s2 ∧ TokMatches ts s2 := by
  cases h with
  | dot c ts s2 hs => exact ⟨c, s2, rfl, hs⟩

/-- Inversion of a star-headed match. -/
theorem TokMatches.star_inv {ts : List RTok} {s : List Char}
    (h : TokMatches (.star :: ts) s) : ∃ a b, s = a ++ b ∧ TokMatches ts b := by
  cases h with
  | star ts a b hb => exact ⟨a, b, rfl, hb⟩

/-- Prepending a character preserves a star-headed match. -/
theorem TokMatches.star_cons {ts : List RTok} {m : List Char} (c : Char)
    (h : TokMatches (.star :: ts) m) : TokMatches (.star :: ts) (c :: m) := by
  obtain ⟨a, b, he, hb⟩ := h.star_inv
  subst he
  exact .star ts (c :: a) b hb

/-- Soundness and completeness of the fuel-indexed prefix matcher: with enough
fuel, it answers true exactly when the token list matches some prefix of the
input. -/
theorem tokMatchPreF_iff (fuel : Nat) (ts : List RTok) (s : List Char)
    (hf : ts.length + s.length ≤ fuel) :
    tokMatchPreF fuel ts s = true ↔ ∃ mid suf, s = mid ++ suf ∧ TokMatches ts mid := by
  induction fuel generalizing ts s with
  | zero =>
    have hts : ts = [] := by
      cases ts with
      | nil => rfl
      | cons a b => simp at hf
    subst hts
    exact ⟨fun _ => ⟨[], s, rfl, .nil⟩, fun _ => rfl⟩
  | succ n ih =>
    cases ts with
    | nil =>
      exact ⟨fun _ => ⟨[], s, rfl, .nil⟩, fun _ => rfl⟩
    | cons tk ts' =>
      cases tk with
      | lit c =>
        cases s with
        | nil =>
          rw [show tokMatchPreF (n + 1) (RTok.lit c :: ts') [] = false from rfl]
          simp only [Bool.false_eq_true, false_iff]
          rintro ⟨mid, suf, he, hm⟩
          obtain ⟨s2, hs2, -⟩ := hm.lit_inv
          subst hs2
          simp at he
        | cons d s2 =>
          simp only [tokMatchPreF, Bool.and_eq_true, beq_iff_eq]
          rw [ih ts' s2 (by simp only [List.length_cons] at hf ⊢; omega)]
          constructor
          · rintro ⟨hcd, mid, suf, he, hm⟩
            subst hcd
            exact ⟨c :: mid, suf, by simp [he], .lit c ts' mid hm⟩
          · rintro ⟨mid, suf, he, hm⟩
            obtain ⟨m2, hm2, hrec⟩ := hm.lit_inv
            subst hm2
            simp only [List.cons_append, List.cons.injEq] at he
            exact ⟨he.1.symm, m2, suf, he.2, hrec⟩
      | dot =>
        cases s with
        | nil =>
          rw [show tokMatchPreF (n + 1) (RTok.dot :: ts') [] = false from rfl]
          simp only [Bool.false_eq_true, false_iff]
          rintro ⟨mid, suf, he, hm⟩
          obtain ⟨c, s2, hs2, -⟩ := hm.dot_inv
          subst hs2
          simp at he
        | cons d s2 =>
          simp only [tokMatchPreF]
          rw [ih ts' s2 (by simp only [List.length_cons] at hf ⊢; omega)]
          constructor
          · rintro ⟨mid, suf, he, hm⟩
            exact ⟨d :: mid, suf, by simp [he], .dot d ts' mid hm⟩
          · rintro ⟨mid, suf, he, hm⟩
            obtain ⟨c, m2, hm2, hrec⟩ := hm.dot_inv
            subst hm2
            simp only [List.cons_append, List.cons.injEq] at he
            exact ⟨m2, suf, he.2, hrec⟩
      | star =>
        cases s with
        | nil =>
          simp only [tokMatchPreF]
          rw [ih ts' [] (by simp only [List.length_cons] at hf ⊢; omega)]
          constructor
          · rintro ⟨mid, suf, he, hm⟩
            obtain ⟨h1, h2⟩ := List.append_eq_nil.mp he.symm
            subst h1
            exact ⟨[], [], rfl, .star ts' [] [] hm⟩
          · rintro ⟨mid, suf, he, hm⟩
            obtain ⟨h1, h2⟩ := List.append_eq_nil.mp he.symm
            subst h1
            obtain ⟨a, b, hab, hb⟩ := hm.star_inv
            obtain ⟨ha2, hb2⟩ := List.append_eq_nil.mp hab.symm
            subst ha2
            subst hb2
            exact ⟨[], [], rfl, hb⟩
        | cons d s2 =>
          simp only [tokMatchPreF, Bool.or_eq_true]
          rw [ih ts' (d :: s2) (by simp only [List.length_cons] at hf ⊢; omega),
              ih (.star :: ts') s2 (by simp only [List.length_cons] at hf ⊢; omega)]
          constructor
          · rintro (⟨mid, suf, he, hm⟩ | ⟨mid, suf, he, hm⟩)
            · exact ⟨mid, suf, he, .star ts' [] mid hm⟩
            · exact ⟨d :: mid, suf, by simp [he], hm.star_cons d⟩
          · rintro ⟨mid, suf, he, hm⟩
            obtain ⟨a, b, hab, hb⟩ := hm.star_inv
            subst hab
            cases a with
            | nil =>
              exact Or.inl ⟨b, suf, by simpa using he, hb⟩
            | cons x a2 =>
              simp only [List.cons_append, List.cons.injEq] at he
              exact Or.inr ⟨a2 ++ b, suf, by simp [he.2], .star ts' a2 b hb⟩

/-- Prefix-matcher correctness at the canonical fuel. -/
theorem tokMatchPre_iff (ts : List RTok) (s : List Char) :
    tokMatchPre ts s = true ↔ ∃ mid suf, s = mid ++ suf ∧ TokMatches ts mid :=
  tokMatchPreF_iff _ ts s (Nat.le_refl _)

/-- Correctness of the unanchored search: some substring of the input is
matched by the token list. -/
theorem regexTest_iff (ts : List RTok) (s : List Char) :
    regexTest ts s = true ↔
      ∃ pre mid suf, s = pre ++ mid ++ suf ∧ TokMatches ts mid := by
  induction s with
  | nil =>
    simp only [regexTest]
    rw [tokMatchPre_iff]
    constructor
    · rintro ⟨mid, suf, he, hm⟩
      exact ⟨[], mid, suf, by simpa using he, hm⟩
    · rintro ⟨pre, mid, suf, he, hm⟩
      refine ⟨mid, suf, ?_, hm⟩
      rcases List.append_eq_nil.mp (List.append_eq_nil.mp he.symm).1 with ⟨h1, h2⟩
      rcases List.append_eq_nil.mp he.symm with ⟨-, h3⟩
      subst h2
      subst h3
      rfl
  | cons c t ih =>
    simp only [regexTest, Bool.or_eq_true]
    rw [tokMatchPre_iff, ih]
    constructor
    · rintro (⟨mid, suf, he, hm⟩ | ⟨pre, mid, suf, he, hm⟩)
      · exact ⟨[], mid, suf, by simpa using he, hm⟩
      · exact ⟨c :: pre, mid, suf, by simp [he], hm⟩
    · rintro ⟨pre, mid, suf, he, hm⟩
      cases pre with
      | nil => exact Or.inl ⟨mid, suf, by simpa using he, hm⟩
      | cons x pre2 =>
        simp only [List.cons_append, List.cons.injEq] at he
        exact Or.inr ⟨pre2, mid, suf, he.2, hm⟩

/-! ### Digit and number lemmas (towards the round-trip claim C4) -/

/-- Digit characters are digits. -/
theorem digitChar_isDigit (d : Nat) (h : d < 10) : (digitChar d).isDigit = true := by
  interval_cases d <;> decide

/-- Numeric value of a digit character. -/
theorem digitChar_toNat (d : Nat) (h : d < 10) : (digitChar d).toNat = 48 + d := by
  interval_cases d <;> decide

/-- A digit is not whitespace. -/
theorem digit_wsChar (c : Char) (h : c.isDigit = true) : wsChar c = false := by
  by_contra hw
  rw [Bool.not_eq_false] at hw
  simp only [wsChar, Bool.or_eq_true, decide_eq_true_eq] at hw
  rcases hw with ((h1 | h1) | h1) | h1 <;> subst h1 <;> exact absurd h (by decide)

/-- All characters of a rendered natural number are digits. -/
theorem natToCharsAux_digits (fuel : Nat) :
    ∀ n, n < fuel → ∀ c ∈ natToCharsAux fuel n, c.isDigit = true := by
  induction fuel with
  | zero => intro n h; omega
  | succ f ih =>
    intro n hn c hc
    by_cases h10 : n < 10
    · simp only [natToCharsAux, if_pos h10, List.mem_singleton] at hc
      subst hc
      exact digitChar_isDigit n h10
    · simp only [natToCharsAux, if_neg h10] at hc
      rcases List.mem_append.mp hc with h1 | h1
      · exact ih (n / 10) (by omega) c h1
      · simp only [List.mem_singleton] at h1
        subst h1
        exact digitChar_isDigit (n % 10) (by omega)

/-- The rendered natural number is nonempty. -/
theorem natToChars_ne_nil (n : Nat) : natToChars n ≠ [] := by
  show (if n < 10 then [digitChar n]
        else natToCharsAux n (n / 10) ++ [digitChar (n % 10)]) ≠ []
  split <;> simp

/-- Folding one more digit onto a digit string. -/
theorem digitsVal_append_single (ds : List Char) (c : Char) :
    digitsVal (ds ++ [c]) = digitsVal ds * 10 + (c.toNat - 48) := by
  simp [digitsVal, List.foldl_append]

/-- The rendered natural number evaluates back to its value. -/
theorem digitsVal_natToCharsAux (fuel : Nat) :
    ∀ n, n < fuel → digitsVal (natToCharsAux fuel n) = n := by
  induction fuel with
  | zero => intro n h; omega
  | succ f ih =>
    intro n hn
    by_cases h10 : n < 10
    · simp only [natToCharsAux, if_pos h10]
      simp [digitsVal, digitChar_toNat n h10]
    · simp only [natToCharsAux, if_neg h10]
      rw [digitsVal_append_single, ih (n / 10) (by omega), digitChar_toNat (n % 10) (by omega)]
      omega

/-- Splitting a digit string followed by a non-digit context. -/
theorem takeDigits_append (ds rest : List Char) (hds : ∀ c ∈ ds, c.isDigit = true)
    (hr : noDigitHead rest = true) : takeDigits (ds ++ rest) = (ds, rest) := by
  induction ds with
  | nil =>
    cases rest with
    | nil => rfl
    | cons r t =>
      cases hri : r.isDigit with
      | false => simp [takeDigits, hri]
      | true => exact absurd hr (by simp [noDigitHead, hri])
  | cons d ds2 ih =>
    have hd : d.isDigit = true := hds d (by simp)
    simp only [List.cons_append, takeDigits, hd, if_true, List.append_eq]
    rw [ih (fun c hc => hds c (by simp [hc]))]

/-- Round trip for natural-number literals followed by a non-digit context. -/
theorem parseNumAbs_natToChars (n : Nat) (rest : List Char) (hr : noDigitHead rest = true) :
    parseNumAbs (natToChars n ++ rest) = some (n, rest) := by
  have hdig : ∀ c ∈ natToChars n, c.isDigit = true := natToCharsAux_digits (n + 1) n (by omega)
  have hval : digitsVal (natToChars n) = n := digitsVal_natToCharsAux (n + 1) n (by omega)
  have hne : natToChars n ≠ [] := natToChars_ne_nil n
  unfold parseNumAbs
  rw [takeDigits_append _ _ hdig hr]
  cases hct : natToChars n with
  | nil => exact absurd hct hne
  | cons c t =>
    rw [hct] at hval
    show some (digitsVal (c :: t), rest) = some (n, rest)
    rw [hval]

/-- The head of a rendered natural number is a digit. -/
theorem natToChars_head (n : Nat) :
    ∃ c t, natToChars n = c :: t ∧ c.isDigit = true := by
  cases hct : natToChars n with
  | nil => exact absurd hct (natToChars_ne_nil n)
  | cons c t =>
    refine ⟨c, t, rfl, ?_⟩
    have hmem : c ∈ natToChars n := by rw [hct]; simp
    exact natToCharsAux_digits (n + 1) n (by omega) c hmem

/-! ### String-literal round trip -/

/-- Equation of the string-body parser on a plain (unescaped) character. -/
theorem parseStringBody_plain (c : Char) (t : List Char) (h1 : c ≠ '"') (h2 : c ≠ '\\')
    (h3 : ¬ c.toNat < 32) :
    parseStringBody (c :: t) = (parseStringBody t).map (fun p => (c :: p.1, p.2)) := by
  conv_lhs => rw [parseStringBody.eq_def]
  simp only [if_neg h1, if_neg h2, if_neg h3]

/-- Round trip of the string-body parser over the escaped rendering. -/
theorem parseStringBody_escape :
    ∀ (s rest : List Char), (∀ c ∈ s, strCharOk c = true) →
      parseStringBody (escape s ++ ('"' :: rest)) = some (s, rest) := by
  intro s
  induction s with
  | nil =>
    intro rest _
    show parseStringBody ('"' :: rest) = some ([], rest)
    rw [parseStringBody.eq_def]
    simp
  | cons c t ih =>
    intro rest hok
    have hok2 : ∀ d ∈ t, strCharOk d = true := fun d hd => hok d (by simp [hd])
    have hokc : strCharOk c = true := hok c (by simp)
    by_cases h1 : c = '"'
    · subst h1
      show (parseStringBody (escape t ++ ('"' :: rest))).map
            (fun p => ('"' :: p.1, p.2)) = some ('"' :: t, rest)
      rw [ih rest hok2]
      rfl
    by_cases h2 : c = '\\'
    · subst h2
      show (parseStringBody (escape t ++ ('"' :: rest))).map
            (fun p => ('\\' :: p.1, p.2)) = some ('\\' :: t, rest)
      rw [ih rest hok2]
      rfl
    by_cases h3 : c = '\n'
    · subst h3
      show (parseStringBody (escape t ++ ('"' :: rest))).map
            (fun p => ('\n' :: p.1, p.2)) = some ('\n' :: t, rest)
      rw [ih rest hok2]
      rfl
    by_cases h4 : c = '\t'
    · subst h4
      show (parseStringBody (escape t ++ ('"' :: rest))).map
            (fun p => ('\t' :: p.1, p.2)) = some ('\t' :: t, rest)
      rw [ih rest hok2]
      rfl
    by_cases h5 : c = '\r'
    · subst h5
      show (parseStringBody (escape t ++ ('"' :: rest))).map
            (fun p => ('\r' :: p.1, p.2)) = some ('\r' :: t, rest)
      rw [ih rest hok2]
      rfl
    -- plain character
    have h32 : 32 ≤ c.toNat := by
      simp only [strCharOk, Bool.or_eq_true, decide_eq_true_eq] at hokc
      rcases hokc with ((h | h) | h) | h
      · exact h
      · exact absurd h h3
      · exact absurd h h4
      · exact absurd h h5
    have hesc : escape (c :: t) = c :: escape t := by
      simp [escape, escapeChar, h1, h2, h3, h4, h5]
    rw [hesc, List.cons_append, parseStringBody_plain c _ h1 h2 (by omega)]
    rw [ih rest hok2]
    rfl

/-! ### Render shape lemmas -/

/-- Every rendering is nonempty. -/
theorem render_length_pos (j : Json) : 0 < (render j).length := by
  cases j with
  | null => simp [render]
  | bool b => cases b <;> simp [render]
  | num n =>
    simp only [render, renderInt]
    split
    · simp
    · rcases natToChars_head n.natAbs with ⟨c, t, hct, -⟩
      simp [hct]
  | str s => simp [render]
  | arr xs => simp [render]
  | obj fs => simp [render]

/-- The rendering of the rest of an array is nonempty. -/
theorem renderArrRest_length_pos (xs : List Json) : 0 < (renderArrRest xs).length := by
  cases xs <;> simp [renderArrRest]

/-- The rendering of the rest of an object is nonempty. -/
theorem renderObjRest_length_pos (fs : List (String × Json)) : 0 < (renderObjRest fs).length := by
  cases fs <;> simp [renderObjRest]

/-- Length decomposition of a rendered field. -/
theorem renderField_length (k : String) (v : Json) :
    (renderField (k, v)).length = 3 + (escape k.data).length + (render v).length := by
  simp only [renderField, List.length_cons, List.length_append]
  omega

/-- Rendered values begin with a character that is not whitespace and not a
closing bracket. -/
theorem render_head_info (j : Json) :
    ∃ c t, render j = c :: t ∧ wsChar c = false ∧ c ≠ ']' := by
  cases j with
  | null => exact ⟨'n', _, rfl, by decide, by decide⟩
  | bool b => cases b with
    | true => exact ⟨'t', _, rfl, by decide, by decide⟩
    | false => exact ⟨'f', _, rfl, by decide, by decide⟩
  | num n =>
    simp only [render, renderInt]
    split
    · exact ⟨'-', _, rfl, by decide, by decide⟩
    · rcases natToChars_head n.natAbs with ⟨c, t, hct, hd⟩
      refine ⟨c, t, hct, digit_wsChar c hd, ?_⟩
      rintro rfl
      exact absurd hd (by decide)
  | str s => exact ⟨'"', _, rfl, by decide, by decide⟩
  | arr xs => exact ⟨'[', _, rfl, by decide, by decide⟩
  | obj fs => exact ⟨'{', _, rfl, by decide, by decide⟩

/-- The context after a rendered array rest or before it never begins with a
digit. -/
theorem noDigitHead_renderArrRest (xs : List Json) (rest : List Char) :
    noDigitHead (renderArrRest xs ++ rest) = true := by
  cases xs <;> simp [renderArrRest, noDigitHead]

/-- The context after a rendered object rest never begins with a digit. -/
theorem noDigitHead_renderObjRest (fs : List (String × Json)) (rest : List Char) :
    noDigitHead (renderObjRest fs ++ rest) = true := by
  cases fs <;> simp [renderObjRest, noDigitHead]

/-- Skipping whitespace leaves a list headed by a non-whitespace character
untouched. -/
theorem skipWs_cons_of_not_ws (c : Char) (t : List Char) (h : wsChar c = false) :
    skipWs (c :: t) = c :: t := by
  simp [skipWs, h]

/-- Renderings never start with whitespace, so skipping is the identity on a
rendering followed by anything. -/
theorem skipWs_render_append (x : Json) (X : List Char) :
    skipWs (render x ++ X) = render x ++ X := by
  obtain ⟨c, t, hct, hcw, -⟩ := render_head_info x
  rw [hct, List.cons_append, skipWs_cons_of_not_ws c _ hcw]

/-! ### Parser dispatch lemmas -/

/-- A digit differs from every non-digit character. -/
theorem digit_ne_char (c d : Char) (hc : c.isDigit = true) (hd : d.isDigit = false) : c ≠ d := by
  rintro rfl
  rw [hc] at hd
  exact Bool.noConfusion hd

/-- Head dispatch of the value parser at a digit. -/
theorem parseVal_digit_head (fuel : Nat) (c : Char) (t : List Char) (hc : c.isDigit = true) :
    parseVal (fuel + 1) (c :: t) =
      (parseNumAbs (c :: t)).map (fun p => (Json.num (p.1 : Int), p.2)) := by
  simp only [parseVal]
  rw [if_neg (digit_ne_char c 'n' hc (by decide)),
      if_neg (digit_ne_char c 't' hc (by decide)),
      if_neg (digit_ne_char c 'f' hc (by decide)),
      if_neg (digit_ne_char c '"' hc (by decide)),
      if_neg (digit_ne_char c '-' hc (by decide)),
      if_neg (digit_ne_char c '[' hc (by decide)),
      if_neg (digit_ne_char c '{' hc (by decide)),
      if_pos hc]

/-- The array-tail parser accepts an immediate closing bracket at any fuel. -/
theorem parseArrTail_rbracket (fuel : Nat) (r : List Char) :
    parseArrTail fuel (']' :: r) = some ([], r) := by
  cases fuel <;> rfl

/-- The object-tail parser accepts an immediate closing brace at any fuel. -/
theorem parseObjTail_rbrace (fuel : Nat) (r : List Char) :
    parseObjTail fuel ('}' :: r) = some ([], r) := by
  cases fuel <;> rfl

/-- Dispatch of the array-tail parser when the array is not immediately
closed. -/
theorem parseArrTail_cons_ne (m : Nat) (c : Char) (u : List Char) (hc : c ≠ ']') :
    parseArrTail (m + 1) (c :: u) = parseArrItems m (c :: u) := by
  rw [parseArrTail.eq_def]
  split
  · rename_i heq
    exact absurd (List.head_eq_of_cons_eq heq) hc
  · omega
  · rename_i a b fuel heq hne
    obtain rfl : fuel = m := by omega
    rfl

/-- Dispatch of the object-tail parser when the object is not immediately
closed. -/
theorem parseObjTail_cons_ne (m : Nat) (c : Char) (u : List Char) (hc : c ≠ '}') :
    parseObjTail (m + 1) (c :: u) = parseObjItems m (c :: u) := by
  rw [parseObjTail.eq_def]
  split
  · rename_i heq
    exact absurd (List.head_eq_of_cons_eq heq) hc
  · omega
  · rename_i a b fuel heq hne
    obtain rfl : fuel = m := by omega
    rfl

/-! ### Round trip of the JSON parser over the canonical rendering -/

/-- Main round-trip lemma, proved by strong induction on the fuel: with enough
fuel the value parser recovers every rendered well-formed value, and the item
parsers recover rendered nonempty element and field lists, each returning the
untouched context. -/
theorem parse_render_aux (fuel : Nat) :
    (∀ (j : Json) (rest : List Char), Json.wf j = true →
      2 * (render j).length ≤ fuel → noDigitHead rest = true →
      parseVal fuel (render j ++ rest) = some (j, rest)) ∧
    (∀ (x : Json) (xs : List Json) (rest : List Char),
      Json.wfList (x :: xs) = true →
      2 * ((render x).length + (renderArrRest xs).length) ≤ fuel →
      parseArrItems fuel (render x ++ (renderArrRest xs ++ rest)) = some (x :: xs, rest)) ∧
    (∀ (k : String) (v : Json) (fs : List (String × Json)) (rest : List Char),
      Json.wfFields ((k, v) :: fs) = true →
      2 * ((renderField (k, v)).length + (renderObjRest fs).length) ≤ fuel →
      parseObjItems fuel (renderField (k, v) ++ (renderObjRest fs ++ rest)) =
        some ((k, v) :: fs, rest)) := by
  induction fuel using Nat.strong_induction_on with
  | _ fuel ih =>
  refine ⟨?_, ?_, ?_⟩
  · -- value round trip
    intro j rest hwf hlen hnd
    have hpos := render_length_pos j
    obtain ⟨n, rfl⟩ : ∃ n, fuel = n + 1 := ⟨fuel - 1, by omega⟩
    cases j with
    | null => rfl
    | bool b => cases b <;> rfl
    | num k =>
      simp only [render, renderInt] at hlen ⊢
      by_cases hneg : k < 0
      · rw [if_pos hneg, List.cons_append]
        show (parseNumAbs (natToChars k.natAbs ++ rest)).map
              (fun p => (Json.num (-(p.1 : Int)), p.2)) = some (Json.num k, rest)
        rw [parseNumAbs_natToChars _ _ hnd]
        show some (Json.num (-(k.natAbs : Int)), rest) = some (Json.num k, rest)
        have hk : -((k.natAbs : Int)) = k := by omega
        rw [hk]
      · rw [if_neg hneg]
        obtain ⟨c, t, hct, hcd⟩ := natToChars_head k.natAbs
        rw [hct, List.cons_append, parseVal_digit_head n c (t ++ rest) hcd]
        have hnum : parseNumAbs (c :: (t ++ rest)) = some (k.natAbs, rest) := by
          rw [← List.cons_append, ← hct]
          exact parseNumAbs_natToChars _ _ hnd
        rw [hnum]
        show some (Json.num ((k.natAbs : Nat) : Int), rest) = some (Json.num k, rest)
        have hk : ((k.natAbs : Nat) : Int) = k := by omega
        rw [hk]
    | str s =>
      have hok : ∀ c ∈ s.data, strCharOk c = true := by
        simp only [Json.wf, strOkB, List.all_eq_true, decide_eq_true_eq] at hwf
        exact hwf
      show parseVal (n + 1) (('"' :: (escape s.data ++ ['"'])) ++ rest) = some (Json.str s, rest)
      rw [List.cons_append, List.append_assoc]
      show (parseStringBody (escape s.data ++ (['"'] ++ rest))).map
            (fun p => (Json.str (String.mk p.1), p.2)) = some (Json.str s, rest)
      rw [List.singleton_append, parseStringBody_escape s.data rest hok]
      rfl
    | arr xs =>
      cases xs with
      | nil =>
        show (parseArrTail n (skipWs ([']'] ++ rest))).map (fun p => (Json.arr p.1, p.2)) =
          some (Json.arr [], rest)
        rw [List.singleton_append, skipWs_cons_of_not_ws ']' rest (by decide),
            parseArrTail_rbracket n rest]
        rfl
      | cons x xs2 =>
        simp only [Json.wf] at hwf
        obtain ⟨hwx, hwxs⟩ : x.wf = true ∧ Json.wfList xs2 = true := by
          simpa [Json.wfList, Bool.and_eq_true] using hwf
        simp only [render, renderArrBody, List.length_cons, List.length_append] at hlen
        have hlx := render_length_pos x
        have hlr := renderArrRest_length_pos xs2
        obtain ⟨m, rfl⟩ : ∃ m, n = m + 1 := ⟨n - 1, by omega⟩
        show parseVal (m + 1 + 1) (('[' :: (render x ++ renderArrRest xs2)) ++ rest) =
          some (Json.arr (x :: xs2), rest)
        rw [List.cons_append]
        show (parseArrTail (m + 1) (skipWs ((render x ++ renderArrRest xs2) ++ rest))).map
              (fun p => (Json.arr p.1, p.2)) = some (Json.arr (x :: xs2), rest)
        rw [List.append_assoc, skipWs_render_append]
        obtain ⟨c, t, hct, hcw, hcne⟩ := render_head_info x
        rw [hct, List.cons_append, parseArrTail_cons_ne m c _ hcne,
            ← List.cons_append, ← hct]
        rw [(ih m (by omega)).2.1 x xs2 rest hwf (by omega)]
        rfl
    | obj fs =>
      cases fs with
      | nil =>
        show (parseObjTail n (skipWs (['}'] ++ rest))).map (fun p => (Json.obj p.1, p.2)) =
          some (Json.obj [], rest)
        rw [List.singleton_append, skipWs_cons_of_not_ws '}' rest (by decide),
            parseObjTail_rbrace n rest]
        rfl
      | cons f fs2 =>
        obtain ⟨k, v⟩ := f
        simp only [Json.wf, Bool.and_eq_true] at hwf
        obtain ⟨-, hwfields⟩ := hwf
        simp only [render, renderObjBody, List.length_cons, List.length_append] at hlen
        have hlf : (renderField (k, v)).length =
            3 + (escape k.data).length + (render v).length := renderField_length k v
        have hlv := render_length_pos v
        have hlr := renderObjRest_length_pos fs2
        obtain ⟨m, rfl⟩ : ∃ m, n = m + 1 := ⟨n - 1, by omega⟩
        show parseVal (m + 1 + 1) (('{' :: (renderField (k, v) ++ renderObjRest fs2)) ++ rest) =
          some (Json.obj ((k, v) :: fs2), rest)
        rw [List.cons_append]
        show (parseObjTail (m + 1) (skipWs ((renderField (k, v) ++ renderObjRest fs2) ++ rest))).map
              (fun p => (Json.obj p.1, p.2)) = some (Json.obj ((k, v) :: fs2), rest)
        rw [List.append_assoc]
        have hskip : skipWs (renderField (k, v) ++ (renderObjRest fs2 ++ rest)) =
            renderField (k, v) ++ (renderObjRest fs2 ++ rest) := by
          show skipWs ('"' :: ((escape k.data ++ ('"' :: ':' :: render v)) ++ (renderObjRest fs2 ++ rest))) =
            renderField (k, v) ++ (renderObjRest fs2 ++ rest)
          rw [skipWs_cons_of_not_ws '"' _ (by decide)]
          rfl
        rw [hskip]
        have hrf : renderField (k, v) ++ (renderObjRest fs2 ++ rest) =
            '"' :: ((escape k.data ++ ('"' :: ':' :: render v)) ++ (renderObjRest fs2 ++ rest)) := rfl
        rw [hrf, parseObjTail_cons_ne m '"' _ (by decide), ← hrf]
        rw [(ih m (by omega)).2.2 k v fs2 rest hwfields (by omega)]
        rfl
  · -- array items round trip
    intro x xs rest hwl hlen
    have hlx := render_length_pos x
    have hlr := renderArrRest_length_pos xs
    obtain ⟨m, rfl⟩ : ∃ m, fuel = m + 1 := ⟨fuel - 1, by omega⟩
    obtain ⟨hwx, hwxs⟩ : x.wf = true ∧ Json.wfList xs = true := by
      simpa [Json.wfList, Bool.and_eq_true] using hwl
    have hv := (ih m (by omega)).1 x (renderArrRest xs ++ rest) hwx (by omega)
      (noDigitHead_renderArrRest xs rest)
    show (match parseVal m (skipWs (render x ++ (renderArrRest xs ++ rest))) with
          | some (v, r) =>
            (match skipWs r with
             | ',' :: t => (parseArrItems m t).map (fun p => (v :: p.1, p.2))
             | ']' :: t => some ([v], t)
             | _ => none)
          | none => none) = some (x :: xs, rest)
    rw [skipWs_render_append, hv]
    cases xs with
    | nil => rfl
    | cons y ys =>
      obtain ⟨hwy, hwys⟩ : y.wf = true ∧ Json.wfList ys = true := by
        simpa [Json.wfList, Bool.and_eq_true] using hwxs
      have e1 : (renderArrRest (y :: ys)).length =
          1 + (render y).length + (renderArrRest ys).length := by
        simp [renderArrRest]
        omega
      have hly := render_length_pos y
      have hlry := renderArrRest_length_pos ys
      show (parseArrItems m ((render y ++ renderArrRest ys) ++ rest)).map
            (fun p => (x :: p.1, p.2)) = some (x :: y :: ys, rest)
      rw [List.append_assoc]
      rw [(ih m (by omega)).2.1 y ys rest (by simp [Json.wfList, hwy, hwys]) (by omega)]
      rfl
  · -- object fields round trip
    intro k v fs rest hwf hlen
    simp only [Json.wfFields, Bool.and_eq_true] at hwf
    obtain ⟨⟨hk, hv⟩, hfs⟩ := hwf
    have hkok : ∀ c ∈ k.data, strCharOk c = true := by
      simp only [strOkB, List.all_eq_true, decide_eq_true_eq] at hk
      exact hk
    have hlf : (renderField (k, v)).length =
        3 + (escape k.data).length + (render v).length := renderField_length k v
    have hlv := render_length_pos v
    have hlr := renderObjRest_length_pos fs
    obtain ⟨m, rfl⟩ : ∃ m, fuel = m + 1 := ⟨fuel - 1, by omega⟩
    have hassoc : renderField (k, v) ++ (renderObjRest fs ++ rest) =
        '"' :: (escape k.data ++ ('"' :: (':' :: (render v ++ (renderObjRest fs ++ rest))))) := by
      show ('"' :: (escape k.data ++ ('"' :: ':' :: render v))) ++ (renderObjRest fs ++ rest) = _
      simp [List.append_assoc]
    rw [hassoc]
    have hstr := parseStringBody_escape k.data
      (':' :: (render v ++ (renderObjRest fs ++ rest))) hkok
    have hval := (ih m (by omega)).1 v (renderObjRest fs ++ rest) hv (by omega)
      (noDigitHead_renderObjRest fs rest)
    show (match skipWs ('"' :: (escape k.data ++ ('"' :: (':' :: (render v ++ (renderObjRest fs ++ rest)))))) with
          | '"' :: t =>
            (match parseStringBody t with
             | some (kk, r) =>
               (match skipWs r with
                | ':' :: r2 =>
                  (match parseVal m (skipWs r2) with
                   | some (vv, r3) =>
                     (match skipWs r3 with
                      | ',' :: r4 => (parseObjItems m r4).map (fun p => ((String.mk kk, vv) :: p.1, p.2))
                      | '}' :: r4 => some ([(String.mk kk, vv)], r4)
                      | _ => none)
                   | none => none)
                | _ => none)
             | none => none)
          | _ => none) = some ((k, v) :: fs, rest)
    rw [skipWs_cons_of_not_ws '"' _ (by decide)]
    show (match parseStringBody (escape k.data ++ ('"' :: (':' :: (render v ++ (renderObjRest fs ++ rest))))) with
          | some (kk, r) =>
            (match skipWs r with
             | ':' :: r2 =>
               (match parseVal m (skipWs r2) with
                | some (vv, r3) =>
                  (match skipWs r3 with
                   | ',' :: r4 => (parseObjItems m r4).map (fun p => ((String.mk kk, vv) :: p.1, p.2))
                   | '}' :: r4 => some ([(String.mk kk, vv)], r4)
                   | _ => none)
                | none => none)
             | _ => none)
          | none => none) = some ((k, v) :: fs, rest)
    rw [hstr]
    show (match parseVal m (skipWs (render v ++ (renderObjRest fs ++ rest))) with
          | some (vv, r3) =>
            (match skipWs r3 with
             | ',' :: r4 => (parseObjItems m r4).map (fun p => ((String.mk k.data, vv) :: p.1, p.2))
             | '}' :: r4 => some ([(String.mk k.data, vv)], r4)
             | _ => none)
          | none => none) = some ((k, v) :: fs, rest)
    rw [skipWs_render_append, hval]
    cases fs with
    | nil => rfl
    | cons f2 fs2 =>
      obtain ⟨k2, v2⟩ := f2
      have hlf2 : (renderField (k2, v2)).length =
          3 + (escape k2.data).length + (render v2).length := renderField_length k2 v2
      have e2 : (renderObjRest ((k2, v2) :: fs2)).length =
          1 + (renderField (k2, v2)).length + (renderObjRest fs2).length := by
        simp [renderObjRest]
        omega
      have hlv2 := render_length_pos v2
      have hlr2 := renderObjRest_length_pos fs2
      show (parseObjItems m ((renderField (k2, v2) ++ renderObjRest fs2) ++ rest)).map
            (fun p => ((String.mk k.data, v) :: p.1, p.2)) = some ((k, v) :: (k2, v2) :: fs2, rest)
      rw [List.append_assoc]
      rw [(ih m (by omega)).2.2 k2 v2 fs2 rest hfs (by omega)]
      rfl

/-- Round trip of the top-level JSON.parse model over the canonical rendering
of a well-formed value. -/
theorem Json.parse_render (j : Json) (h : j.wf = true) :
    Json.parse (Json.renderStr j) = some j := by
  unfold Json.parse
  have hdata : (Json.renderStr j).data = render j := rfl
  have hlen : (Json.renderStr j).length = (render j).length := rfl
  rw [hdata, hlen]
  have hskip : skipWs (render j) = render j := by
    have := skipWs_render_append j []
    simpa using this
  rw [hskip]
  have hmain := (parse_render_aux (2 * (render j).length + 2)).1 j [] h (by omega) rfl
  rw [List.append_nil] at hmain
  rw [hmain]
  rfl

/-! ### Span extraction over an embedded rendering -/

/-- Dropping while over a prefix whose characters all satisfy the predicate. -/
theorem dropWhile_append_of_forall (p : Char → Bool) (a b : List Char)
    (h : ∀ c ∈ a, p c = true) : List.dropWhile p (a ++ b) = List.dropWhile p b := by
  induction a with
  | nil => rfl
  | cons c t ih =>
    simp only [List.cons_append, List.dropWhile_cons, h c (by simp)]
    exact ih (fun x hx => h x (by simp [hx]))

/-- The rendering of the rest of an object ends with the closing brace. -/
theorem renderObjRest_shape (fs : List (String × Json)) :
    ∃ m, renderObjRest fs = m ++ ['}'] := by
  induction fs with
  | nil => exact ⟨[], rfl⟩
  | cons f fs2 ih =>
    obtain ⟨m, hm⟩ := ih
    exact ⟨',' :: (renderField f ++ m), by simp [renderObjRest, hm]⟩

/-- The rendering of an object is an opening brace, a body, and a closing
brace. -/
theorem render_obj_shape (fs : List (String × Json)) :
    ∃ body, render (Json.obj fs) = '{' :: (body ++ ['}']) := by
  cases fs with
  | nil => exact ⟨[], rfl⟩
  | cons f fs2 =>
    obtain ⟨m, hm⟩ := renderObjRest_shape fs2
    refine ⟨renderField f ++ m, ?_⟩
    show '{' :: (renderField f ++ renderObjRest fs2) = '{' :: ((renderField f ++ m) ++ ['}'])
    rw [hm]
    simp [List.append_assoc]

/-- The greedy span extraction recovers exactly the embedded rendered object
when the prose before it contains no opening brace and the prose after it
contains no closing brace. -/
theorem extractSpan_embed (fs : List (String × Json)) (pre post : String)
    (hpre : ∀ c ∈ pre.data, c ≠ '{')
    (hpost : ∀ c ∈ post.data, c ≠ '}') :
    extractSpan (pre ++ Json.renderStr (Json.obj fs) ++ post) =
      some (Json.renderStr (Json.obj fs)) := by
  obtain ⟨body, hbody⟩ := render_obj_shape fs
  have hdata : (pre ++ Json.renderStr (Json.obj fs) ++ post).data =
      pre.data ++ ('{' :: ((body ++ ['}']) ++ post.data)) := by
    rw [String.data_append, String.data_append]
    show pre.data ++ render (Json.obj fs) ++ post.data =
      pre.data ++ ('{' :: ((body ++ ['}']) ++ post.data))
    rw [hbody]
    simp [List.append_assoc]
  have hdw : List.dropWhile (fun c => c != '{')
      (pre.data ++ ('{' :: ((body ++ ['}']) ++ post.data))) =
      '{' :: ((body ++ ['}']) ++ post.data) := by
    rw [dropWhile_append_of_forall _ pre.data _ (fun c hc => by
      simp only [bne_iff_ne, ne_eq, decide_eq_true_eq]
      exact hpre c hc)]
    rw [List.dropWhile_cons]
    simp
  have hcont : (((body ++ ['}']) ++ post.data).contains '}') = true := by
    simp
  have htrim : (('{' :: ((body ++ ['}']) ++ post.data)).reverse.dropWhile
      (fun d => d != '}')).reverse = '{' :: (body ++ ['}']) := by
    have h1 : ('{' :: ((body ++ ['}']) ++ post.data)).reverse =
        post.data.reverse ++ ('}' :: (body.reverse ++ ['{'])) := by
      simp [List.reverse_cons, List.reverse_append, List.append_assoc]
    rw [h1]
    rw [dropWhile_append_of_forall _ _ _ (fun c hc => by
      simp only [bne_iff_ne, ne_eq, decide_eq_true_eq]
      exact hpost c (List.mem_reverse.mp hc))]
    rw [List.dropWhile_cons]
    simp [List.reverse_append, List.append_assoc]
  unfold extractSpan
  rw [hdata, hdw]
  show (if (((body ++ ['}']) ++ post.data).contains '}') = true then
          some (String.mk ((('{' :: ((body ++ ['}']) ++ post.data)).reverse.dropWhile
            (fun d => d != '}')).reverse))
        else none) = some (Json.renderStr (Json.obj fs))
  rw [if_pos hcont, htrim]
  show some (String.mk ('{' :: (body ++ ['}']))) = some (Json.renderStr (Json.obj fs))
  rw [← hbody]
  rfl

/-! ### Small helper facts -/

/-- The empty token list matches everything under unanchored search. -/
theorem regexTest_nil_tokens (s : List Char) : regexTest [] s = true := by
  induction s with
  | nil => rfl
  | cons c t ih => simp [regexTest, tokMatchPre, tokMatchPreF]

/-- The empty pattern compiles to the empty regex and therefore matches every
filename. -/
theorem shouldExclude_emptyPattern (f : String) : shouldExcludeFile [""] f = true := by
  have h0 : compilePattern "" = [] := rfl
  simp [shouldExcludeFile, h0, regexTest_nil_tokens]

/-! ### Claim C1 (corrected)

The claim states that a span which exists but fails to parse is answered with
the step-2 heuristic.  In the source the JSON.parse failure throws into the
catch handler, which returns the stricter sentinel instead. -/

/-- C1 counterexample: on the text with the unparseable span, the interpreter
returns the sentinel object of the catch handler, which differs from the step-2
heuristic result for the same text (the text contains neither "rejected" nor
"not approved", so the heuristic would approve). -/
theorem parseFailure_sentinel_cex :
    extractSpan "\x7bnot json\x7d" = some "\x7bnot json\x7d" ∧
    Json.parse "\x7bnot json\x7d" = none ∧
    parseAnalysisResult "\x7bnot json\x7d" = sentinelResult ∧
    heuristicResult "\x7bnot json\x7d" =
      Json.obj [("approved", Json.bool true), ("issues", Json.arr [])] ∧
    parseAnalysisResult "\x7bnot json\x7d" ≠ heuristicResult "\x7bnot json\x7d" := by
  refine ⟨rfl, rfl, rfl, rfl, ?_⟩
  show sentinelResult ≠ Json.obj [("approved", Json.bool true), ("issues", Json.arr [])]
  simp [sentinelResult]

/-- C1 amended: whenever the greedy span exists but fails to parse, the result
interpreter returns the sentinel approved-false object of the catch handler;
the parse error is swallowed rather than propagated, but the step-2 heuristic
is not used on this path. -/
theorem parseFailure_yields_sentinel (t span : String)
    (h1 : extractSpan t = some span) (h2 : Json.parse span = none) :
    parseAnalysisResult t = sentinelResult := by
  unfold parseAnalysisResult
  rw [h1]
  show (match Json.parse span with
        | some j => j
        | none => sentinelResult) = sentinelResult
  rw [h2]

/-- Witness for `parseFailure_yields_sentinel` at a concrete input. -/
theorem parseFailure_yields_sentinel_witness :
    parseAnalysisResult "\x7bnot json\x7d" = sentinelResult :=
  parseFailure_yields_sentinel "\x7bnot json\x7d" "\x7bnot json\x7d" rfl rfl

/-! ### Claim C2 (confirmed) -/

/-- C2: when the primary completion call fails, analyzePR makes exactly one
further call, with the fixed fallback model identifier and the identical
prompts; a failure of the fallback call propagates unchanged; and in a run
whose completion calls all fail, no comment is posted. -/
theorem analyzePR_fallback_contract :
    (∀ (complete : String → String → String → Except String (Option String))
       (sys user e1 : String),
       complete "gpt-5-latest" sys user = Except.error e1 →
       (analyzePR complete sys user).2 =
         [Action.completion "gpt-5-latest" sys user, Action.completion "gpt-4o" sys user] ∧
       (∀ e2, complete "gpt-4o" sys user = Except.error e2 →
          (analyzePR complete sys user).1 = Except.error e2)) ∧
    (∀ env : Env, (∀ m s u, ∃ e, env.complete m s u = Except.error e) →
       ∀ b, Action.comment b ∉ (run env).2) := by
  constructor
  · intro complete sys user e1 h1
    constructor
    · cases h2 : complete "gpt-4o" sys user <;> simp [analyzePR, h1, h2]
    · intro e2 h2
      simp [analyzePR, h1, h2]
  · intro env hfail b
    obtain ⟨ev, opr, exi, lf, comp, cc⟩ := env
    by_cases he : ev = "pull_request"
    · subst he
      cases opr with
      | none => simp [run]
      | some pr =>
        cases lf with
        | error e => simp [run]
        | ok files =>
          obtain ⟨e1, h1⟩ := hfail "gpt-5-latest" (buildSystemPrompt codingRules)
            (buildPRContent (filterFiles (parseExcludePatterns exi) files) pr)
          obtain ⟨e2, h2⟩ := hfail "gpt-4o" (buildSystemPrompt codingRules)
            (buildPRContent (filterFiles (parseExcludePatterns exi) files) pr)
          dsimp only at h1 h2
          simp [run, analyzePR, h1, h2]
    · simp [run, he]

/-- Witness for `analyzePR_fallback_contract` at concrete inputs. -/
theorem analyzePR_fallback_contract_witness :
    ((analyzePR (fun _ _ _ => Except.error "completion down") "sys" "user").1 =
      Except.error "completion down") ∧
    Action.comment "body" ∉ (run failingEnv).2 :=
  ⟨(analyzePR_fallback_contract.1 (fun _ _ _ => Except.error "completion down")
      "sys" "user" "completion down" rfl).2 "completion down" rfl,
   analyzePR_fallback_contract.2 failingEnv (fun _ _ _ => ⟨"completion down", rfl⟩) "body"⟩

/-! ### Claim C3 (corrected)

The claim states that the run signals failure iff approved is false, with no
other event changing the outcome.  In the source the comment is posted inside
the try block before the verdict is reported, so a posting failure reaches the
catch handler and fails the run even when the verdict approved the PR. -/

/-- C3 counterexample: the model approves (heuristic verdict approved=true),
but the comment-posting call fails, and the run signals failure anyway. -/
theorem run_outcome_cex :
    parseAnalysisResult "All good" =
      Json.obj [("approved", Json.bool true), ("issues", Json.arr [])] ∧
    (run postFailEnv).1 = Outcome.failed "Action failed: comment posting failed" :=
  ⟨rfl, rfl⟩

/-- C3 amended: when every pipeline step up to and including the comment post
succeeds, the run signals success exactly when the approved property of the
produced result is truthy; a failure of the posting step (or of the renderer)
instead reaches the catch handler and signals failure regardless of the
verdict. -/
theorem run_outcome_iff (env : Env) (pr : PullReq) (files : List ChangedFile)
    (result : Json) (acts : List Action) (body : String)
    (he : env.eventName = "pull_request")
    (hpr : env.pullRequest = some pr)
    (hf : env.listFiles = Except.ok files)
    (ha : analyzePR env.complete (buildSystemPrompt codingRules)
            (buildPRContent (filterFiles (parseExcludePatterns env.excludeInput) files) pr) =
          (Except.ok result, acts))
    (hb : postReviewComment result = Except.ok body)
    (hc : env.createComment body = Except.ok ()) :
    ((run env).1 = Outcome.success ↔ truthy (jsGet result "approved") = true) := by
  unfold run
  simp only [he, hpr, hf, ha, hb, hc]
  simp only [ne_eq, not_true_eq_false, if_false]
  cases htr : truthy (jsGet result "approved") <;> simp [htr]

/-- Witness for `run_outcome_iff` at a concrete succeeding environment. -/
theorem run_outcome_iff_witness : (run okEnv).1 = Outcome.success :=
  (run_outcome_iff okEnv pr0 []
      (Json.obj [("approved", Json.bool true), ("issues", Json.arr [])])
      [Action.completion "gpt-5-latest" (buildSystemPrompt codingRules)
        (buildPRContent (filterFiles (parseExcludePatterns "x") []) pr0)]
      ("## ✅ AI Code Review\n\n**Status:** APPROVED\n---\n*Review generated by AI PR Reviewer ")
      rfl rfl rfl rfl rfl rfl).mpr rfl

/-! ### Claim C4 (corrected)

The claim quantifies over every surrounding prose text.  Because the span is
greedy up to the last closing brace of the whole text, prose containing braces
breaks the round trip; it holds when the prose before the object contains no
opening brace and the prose after it contains no closing brace. -/

/-- C4 counterexample: the well-formed object is embedded in prose whose
suffix contains one more closing brace; the greedy span then extends past the
object, fails to parse, and the interpreter returns the sentinel rather than
the embedded object. -/
theorem roundtrip_prose_cex :
    ("" : String) ++ Json.renderStr (Json.obj [("approved", Json.bool true)]) ++ " \x7d" =
      "\x7b\"approved\":true\x7d \x7d" ∧
    parseAnalysisResult "\x7b\"approved\":true\x7d \x7d" = sentinelResult ∧
    parseAnalysisResult "\x7b\"approved\":true\x7d \x7d" ≠
      Json.obj [("approved", Json.bool true)] := by
  refine ⟨rfl, rfl, ?_⟩
  show sentinelResult ≠ Json.obj [("approved", Json.bool true)]
  simp [sentinelResult]

/-- C4 amended: for every well-formed JSON object (distinct keys, representable
strings) embedded in prose whose prefix contains no opening brace and whose
suffix contains no closing brace, the result interpreter extracts exactly the
rendered object, parses it, and returns it property-for-property. -/
theorem parseAnalysisResult_roundtrip (fs : List (String × Json)) (pre post : String)
    (hwf : (Json.obj fs).wf = true)
    (hpre : ∀ c ∈ pre.data, c ≠ '{')
    (hpost : ∀ c ∈ post.data, c ≠ '}') :
    parseAnalysisResult (pre ++ Json.renderStr (Json.obj fs) ++ post) = Json.obj fs := by
  unfold parseAnalysisResult
  rw [extractSpan_embed fs pre post hpre hpost]
  show (match Json.parse (Json.renderStr (Json.obj fs)) with
        | some j => j
        | none => sentinelResult) = Json.obj fs
  rw [Json.parse_render _ hwf]

/-- Witness for `parseAnalysisResult_roundtrip` at a concrete object and
prose. -/
theorem parseAnalysisResult_roundtrip_witness :
    parseAnalysisResult ("Verdict: " ++
        Json.renderStr (Json.obj [("approved", Json.bool false),
          ("issues", Json.arr [Json.str "Missing tests"])]) ++ " (end)") =
      Json.obj [("approved", Json.bool false),
        ("issues", Json.arr [Json.str "Missing tests"])] :=
  parseAnalysisResult_roundtrip
    [("approved", Json.bool false), ("issues", Json.arr [Json.str "Missing tests"])]
    "Verdict: " " (end)" (by rfl) (by decide) (by decide)

/-! ### Claim C5 (corrected)

The claim states that every non-`*` character of a pattern is treated
literally.  The source leaves every other character with its regex meaning; in
particular `.` matches any single character. -/

/-- C5 counterexample: under the source compilation the pattern ".md" excludes
the filename "Xmd" (the dot matches the X), while under the literal reading of
the claim it does not. -/
theorem shouldExcludeFile_dot_cex :
    shouldExcludeFile [".md"] "Xmd" = true ∧ specLiteralExclude [".md"] "Xmd" = false :=
  ⟨rfl, rfl⟩

/-- C5 amended: the pattern is compiled by replacing `*` with any-sequence
while `.` keeps its regex any-single-character meaning (remaining characters of
the modelled fragment are literal); a filename is excluded iff the pattern list
is nonempty and some compiled pattern matches a substring of the filename
(unanchored search). -/
theorem shouldExcludeFile_iff (pats : List String) (f : String) :
    shouldExcludeFile pats f = true ↔
      (pats ≠ [] ∧ ∃ p ∈ pats, ∃ pre mid suf,
        f.data = pre ++ mid ++ suf ∧ TokMatches (compilePattern p) mid) := by
  unfold shouldExcludeFile
  rcases pats with _ | ⟨p, ps⟩
  · simp
  · rw [if_neg (by simp)]
    rw [List.any_eq_true]
    constructor
    · rintro ⟨q, hq, hm⟩
      exact ⟨by simp, q, hq, (regexTest_iff _ _).mp hm⟩
    · rintro ⟨-, q, hq, hm⟩
      exact ⟨q, hq, (regexTest_iff _ _).mpr hm⟩

/-! ### Claim C6 (confirmed) -/

/-- C6: filtering with the empty pattern list is the identity (the empty-list
short-circuit in shouldExcludeFile evaluates no regex), and for every pattern
list the filtered sequence is a sublist of the input, preserving the original
order. -/
theorem filterFiles_empty_and_order :
    (∀ files : List ChangedFile, filterFiles [] files = files) ∧
    (∀ (pats : List String) (files : List ChangedFile),
       (filterFiles pats files).Sublist files) := by
  constructor
  · intro files
    simp [filterFiles, shouldExcludeFile]
  · intro pats files
    exact List.filter_sublist files

/-! ### Claim C7 (confirmed) -/

/-- C7: on text with no JSON-like span, the heuristic verdict holds: the
presence of the substring "rejected" or "not approved" in the lowercased text
yields approved=false with empty issues, and the absence of both yields
approved=true. -/
theorem parseAnalysisResult_noSpan (t : String) (h : extractSpan t = none) :
    (strIncludes (toLowerStr t) "rejected" = true →
       parseAnalysisResult t =
         Json.obj [("approved", Json.bool false), ("issues", Json.arr [])]) ∧
    (strIncludes (toLowerStr t) "not approved" = true →
       parseAnalysisResult t =
         Json.obj [("approved", Json.bool false), ("issues", Json.arr [])]) ∧
    (strIncludes (toLowerStr t) "rejected" = false →
     strIncludes (toLowerStr t) "not approved" = false →
       parseAnalysisResult t =
         Json.obj [("approved", Json.bool true), ("issues", Json.arr [])]) := by
  unfold parseAnalysisResult
  rw [h]
  unfold heuristicResult
  refine ⟨fun h1 => by rw [h1]; simp,
          fun h2 => by rw [h2]; simp,
          fun h1 h2 => by rw [h1, h2]; simp⟩

/-- Witness for `parseAnalysisResult_noSpan` at concrete inputs: a rejection
(testing the lowercasing) and an approval. -/
theorem parseAnalysisResult_noSpan_witness :
    parseAnalysisResult "Overall: Rejected" =
      Json.obj [("approved", Json.bool false), ("issues", Json.arr [])] ∧
    parseAnalysisResult "All good" =
      Json.obj [("approved", Json.bool true), ("issues", Json.arr [])] :=
  ⟨(parseAnalysisResult_noSpan "Overall: Rejected" rfl).1 rfl,
   (parseAnalysisResult_noSpan "All good" rfl).2.2 rfl rfl⟩

/-! ### Claim C8 (code bug)

The spec requires downstream consumers to tolerate missing fields of the
verbatim-parsed object.  The renderer reads result.issues.length
unconditionally, so a parsed object lacking the issues field throws a TypeError
and the run fails in the catch handler. -/

/-- C8: evaluation at the failing input.  The interpreter returns the parsed
object without the issues field verbatim; the comment renderer then throws on
reading length of undefined, and at pipeline level the run fails with that
TypeError even though the verdict approved the PR; with the issues field
present the renderer completes. -/
theorem postReviewComment_missing_issues :
    parseAnalysisResult "\x7b\"approved\": true\x7d" = Json.obj [("approved", Json.bool true)] ∧
    postReviewComment (Json.obj [("approved", Json.bool true)]) =
      Except.error "TypeError: cannot read properties of undefined (reading length)" ∧
    (run missingIssuesEnv).1 =
      Outcome.failed "Action failed: TypeError: cannot read properties of undefined (reading length)" ∧
    (postReviewComment (Json.obj [("approved", Json.bool true), ("issues", Json.arr [])])).isOk = true :=
  ⟨rfl, rfl, rfl, rfl⟩

/-! ### Claim C9 (confirmed) -/

/-- C9: for every integer score in 0..100 the extended-variant renderer
produces a bar of exactly ten glyph cells, floor(score/10) filled followed by
the remainder empty; in particular score 85 yields 8 filled and 2 empty. -/
theorem scoreBar_cells (score : Nat) (h : score ≤ 100) :
    (scoreBar score).data =
      List.replicate (score / 10) '█' ++ List.replicate (10 - score / 10) '░' ∧
    (scoreBar score).data.count '█' = score / 10 ∧
    (scoreBar score).data.count '░' = 10 - score / 10 ∧
    (scoreBar score).data.length = 10 ∧
    scoreBar 85 = String.mk (List.replicate 8 '█' ++ List.replicate 2 '░') := by
  refine ⟨rfl, ?_, ?_, ?_, rfl⟩
  · simp [scoreBar, List.count_append, List.count_replicate]
  · simp [scoreBar, List.count_append, List.count_replicate]
  · simp only [scoreBar, List.length_append, List.length_replicate]
    omega

/-- Witness for `scoreBar_cells` at score 85. -/
theorem scoreBar_cells_witness :
    (scoreBar 85).data.count '█' = 8 ∧ (scoreBar 85).data.count '░' = 2 :=
  ⟨(scoreBar_cells 85 (by decide)).2.1, (scoreBar_cells 85 (by decide)).2.2.1⟩

/-! ### Claim C10 (confirmed) -/

/-- C10: the empty EXCLUDE_PATTERNS input splits into the one-element pattern
list containing the empty string, so the empty-list short-circuit is not
taken; the empty pattern compiles to a regex matching every filename, and
consequently every changed file is excluded. -/
theorem emptyInput_excludes_everything :
    parseExcludePatterns "" = [""] ∧
    (∀ f : String, shouldExcludeFile [""] f = true) ∧
    (∀ files : List ChangedFile, filterFiles [""] files = []) := by
  refine ⟨rfl, shouldExclude_emptyPattern, ?_⟩
  intro files
  simp [filterFiles, shouldExclude_emptyPattern]

end PRReviewer
